import Mathlib

/-!
# Verification of a deterministic Turing-machine simulator

Shallow embedding of the simulator's core (`machine.py`, `config_loader.py`):
the sparse bidirectional tape, the transition table with its wildcard-memory
fallback, and the fueled run loop, together with theorems settling the
specification's claims about them.

Python dictionaries are modelled as association lists where insertion
prepends, so that lookup (first match) returns the most recently inserted
value for a key, matching `dict.__setitem__` / `dict.get` observably.
Python `Optional[str]` is `Option String`; machine symbols and states are
`String`.
-/

/-- Association-list insertion standing for `d[k] = v` on a Python dict:
prepend, so the newest binding for a key shadows older ones. -/
def dictInsert (cells : List (Int × String)) (k : Int) (v : String) :
    List (Int × String) :=
  (k, v) :: cells

/-- `d.get(k, default)` on the tape's dict: first (most recent) binding wins. -/
def dictGet : List (Int × String) → Int → String → String
  | [], _, default => default
  | (k, v) :: rest, q, default => if k = q then v else dictGet rest q default

/-- A transition rule of the machine (`config_loader.Transition`). -/
structure Transition where
  initial_state : String
  read_symbol : String
  next_state : String
  write_symbol : String
  movement : String
  initial_memory : Option String := none
  next_memory : Option String := none
deriving Repr, DecidableEq

/-- The validated machine specification (`config_loader.MachineSpecification`). -/
structure MachineSpecification where
  states : List String
  initial_state : String
  final_states : List String
  input_alphabet : List String
  tape_alphabet : List String
  blank_symbol : String
  transitions : List Transition
  simulation_strings : List String
  memory_alphabet : Option (List String) := none
  initial_memory : Option String := none
deriving Repr, DecidableEq

/-- Python's `memory or '*'` on an `Optional[str]`: `None` and the empty
string are falsy, so both collapse to the wildcard sentinel. -/
def pyOrStar : Option String → String
  | none => "*"
  | some s => if s = "" then "*" else s

/-- `config_loader._transition_key`: the composite string key
`f"{state}|{symbol}|{memory or '*'}"`. -/
def transition_key (state symbol : String) (memory : Option String) : String :=
  state ++ "|" ++ symbol ++ "|" ++ pyOrStar memory

/-- Lookup in the transition map (`dict.get(key)`), first match wins. -/
def mapGet : List (String × Transition) → String → Option Transition
  | [], _ => none
  | (k, v) :: rest, q => if k = q then some v else mapGet rest q

/-- `MachineSpecification.transition_map`: a dict keyed by
`_transition_key(initial_state, read_symbol, initial_memory)`, built by
inserting the transitions in declaration order (so a later duplicate key
overwrites an earlier one). -/
def MachineSpecification.transition_map (spec : MachineSpecification) :
    List (String × Transition) :=
  spec.transitions.foldl
    (fun mapping t =>
      (transition_key t.initial_state t.read_symbol t.initial_memory, t) ::
        mapping)
    []

/-- The sparse bidirectional tape (`machine.Tape`). -/
structure Tape where
  blank_symbol : String
  cells : List (Int × String)
  min_index : Int
  max_index : Int
deriving Repr, DecidableEq

/-- The `for index, symbol in enumerate(initial_input)` loop of
`Tape.__init__`: inserts `cells[index] = symbol` and assigns
`max_index = index` at each iteration. -/
def tapeInitLoop : Nat → List String → List (Int × String) × Int →
    List (Int × String) × Int
  | _, [], acc => acc
  | index, symbol :: rest, (cells, _) =>
      tapeInitLoop (index + 1) rest
        (dictInsert cells (index : Int) symbol, (index : Int))

/-- `Tape.__init__(blank_symbol, initial_input)`: cells are loaded from the
input characters, `min_index`/`max_index` start at 0 and `max_index` is
updated to each loaded index; an empty input explicitly initializes cell 0
to the blank symbol. -/
def Tape.ofInput (blank_symbol : String) (initial_input : List String) :
    Tape :=
  let loaded := tapeInitLoop 0 initial_input ([], 0)
  let cells :=
    if initial_input = [] then dictInsert loaded.1 0 blank_symbol
    else loaded.1
  { blank_symbol := blank_symbol
    cells := cells
    min_index := 0
    max_index := loaded.2 }

/-- `Tape.read` as a state-passing method: the body
`return self.cells.get(position, self.blank_symbol)` performs no
assignment to `self`, so the resulting tape is the receiver unchanged. -/
def Tape.readSt (t : Tape) (position : Int) : String × Tape :=
  (dictGet t.cells position t.blank_symbol, t)

/-- The value returned by `Tape.read`. -/
def Tape.read (t : Tape) (position : Int) : String :=
  (t.readSt position).1

/-- `Tape.write`: stores the symbol and widens the touched bounds. -/
def Tape.write (t : Tape) (position : Int) (symbol : String) : Tape :=
  { t with
    cells := dictInsert t.cells position symbol
    min_index := min t.min_index position
    max_index := max t.max_index position }

/-- `Tape.view` as a state-passing method: the rendering loop calls
`self.read` on every index of the window, threading the tape state through
each call, and joins the rendered cells. -/
def Tape.viewSt (t : Tape) (head_position : Int) (radius : Int := 20) :
    String × Tape :=
  let start := min t.min_index (head_position - radius)
  let stop := max t.max_index (head_position + radius)
  let rendered :=
    (List.range (stop + 1 - start).toNat).foldl
      (fun (acc : List String × Tape) i =>
        let index := start + (i : Int)
        let r := acc.2.readSt index
        let cell :=
          if index = head_position then "[" ++ r.1 ++ "]" else r.1
        (acc.1 ++ [cell], r.2))
      ([], t)
  (String.join rendered.1, rendered.2)

/-- The string returned by `Tape.view`. -/
def Tape.view (t : Tape) (head_position : Int) (radius : Int := 20) :
    String :=
  (t.viewSt head_position radius).1

/-- An instantaneous description snapshot
(`machine.InstantaneousDescription`). -/
structure InstantaneousDescription where
  step : Nat
  state : String
  head_position : Int
  tape_view : String
  memory : Option String
deriving Repr, DecidableEq

/-- The final result of a simulation (`machine.MachineResult`). -/
structure MachineResult where
  accepted : Bool
  halted : Bool
  reason : String
  steps : Nat
  ids : List InstantaneousDescription
deriving Repr, DecidableEq

/-- The simulator (`machine.TuringMachine.__init__` stores the
specification and the transition map built from it). -/
structure TuringMachine where
  spec : MachineSpecification
  transition_map : List (String × Transition)
deriving Repr, DecidableEq

/-- `TuringMachine.__init__(specification)`. -/
def TuringMachine.ofSpec (specification : MachineSpecification) :
    TuringMachine :=
  { spec := specification, transition_map := specification.transition_map }

/-- `TuringMachine._next_transition`: probe the exact
(state, symbol, memory) key first, then fall back to the wildcard key. -/
def TuringMachine.next_transition (tm : TuringMachine) (state symbol : String)
    (memory : Option String) : Option Transition :=
  match mapGet tm.transition_map (transition_key state symbol memory) with
  | some transition => some transition
  | none => mapGet tm.transition_map (transition_key state symbol none)

/-- The `capture()` closure of `TuringMachine.run`: appends a snapshot of
the current run state when `capture_ids` is set. -/
def captureId (capture_ids : Bool) (ids : List InstantaneousDescription)
    (steps : Nat) (state : String) (head_position : Int) (tape : Tape)
    (memory : Option String) : List InstantaneousDescription :=
  if capture_ids then
    ids ++ [{ step := steps
              state := state
              head_position := head_position
              tape_view := tape.view head_position
              memory := memory }]
  else ids

/-- The `while steps < max_steps` loop of `TuringMachine.run`, fueled by the
number of remaining permitted steps (`max_steps - steps`). Exhausted fuel is
the loop condition failing: the step-limit result. Otherwise the machine
reads the head, resolves a transition (halting with the no-transition /
final-state result when none resolves), applies it, counts and snapshots
the step, and stops accepting when the new state is final. -/
def TuringMachine.runAux (tm : TuringMachine) (capture_ids : Bool) :
    Nat → Tape → String → Int → Option String → Nat →
    List InstantaneousDescription → MachineResult
  | 0, _tape, _state, _head, _memory, steps, ids =>
      { accepted := false
        halted := false
        reason := "Se alcanzó el límite máximo de pasos"
        steps := steps
        ids := ids }
  | fuel + 1, tape, state, head_position, memory, steps, ids =>
      let current_symbol := tape.read head_position
      match tm.next_transition state current_symbol memory with
      | none =>
          { accepted := decide (state ∈ tm.spec.final_states)
            halted := true
            reason :=
              if state ∈ tm.spec.final_states then "Estado final alcanzado"
              else "No existe transición definida"
            steps := steps
            ids := ids }
      | some transition =>
          let tape := tape.write head_position transition.write_symbol
          let head_position :=
            if transition.movement = "R" then head_position + 1
            else if transition.movement = "L" then head_position - 1
            else head_position
          let state := transition.next_state
          let memory :=
            match transition.next_memory with
            | some m => some m
            | none => memory
          let steps := steps + 1
          let ids :=
            captureId capture_ids ids steps state head_position tape memory
          if state ∈ tm.spec.final_states then
            { accepted := true
              halted := true
              reason := "Estado final alcanzado"
              steps := steps
              ids := ids }
          else
            tm.runAux capture_ids fuel tape state head_position memory steps
              ids

/-- `TuringMachine.run(input_string, max_steps, capture_ids)`: set up the
fresh tape and initial run state, take the step-0 snapshot, and enter the
step loop with the full step budget. -/
def TuringMachine.run (tm : TuringMachine) (input_string : List String)
    (max_steps : Nat := 10000) (capture_ids : Bool := true) :
    MachineResult :=
  let tape := Tape.ofInput tm.spec.blank_symbol input_string
  let state := tm.spec.initial_state
  let head_position : Int := 0
  let memory := tm.spec.initial_memory
  let ids := captureId capture_ids [] 0 state head_position tape memory
  tm.runAux capture_ids max_steps tape state head_position memory 0 ids

/-- The number of transition applications the loop of `TuringMachine.run`
completes from a given run state with the given remaining step budget:
zero when the budget is exhausted or no transition resolves, and one more
than the count from the successor state otherwise (with the count stopping
when a final state is entered). -/
def TuringMachine.countApps (tm : TuringMachine) :
    Nat → Tape → String → Int → Option String → Nat
  | 0, _, _, _, _ => 0
  | fuel + 1, tape, state, head_position, memory =>
      match tm.next_transition state (tape.read head_position) memory with
      | none => 0
      | some transition =>
          let tape := tape.write head_position transition.write_symbol
          let head_position :=
            if transition.movement = "R" then head_position + 1
            else if transition.movement = "L" then head_position - 1
            else head_position
          let state := transition.next_state
          let memory :=
            match transition.next_memory with
            | some m => some m
            | none => memory
          if state ∈ tm.spec.final_states then 1
          else 1 + tm.countApps fuel tape state head_position memory

/-! ## Helper lemmas -/

theorem dictGet_cons_ne (cells : List (Int × String)) (k pos : Int)
    (v d : String) (h : k ≠ pos) :
    dictGet ((k, v) :: cells) pos d = dictGet cells pos d := by
  simp only [dictGet, if_neg h]

theorem dictGet_tapeInitLoop (d : String) (pos : Int) :
    ∀ (input : List String) (i : Nat) (acc : List (Int × String) × Int),
      (pos < (i : Int) ∨ (i : Int) + input.length ≤ pos) →
      dictGet (tapeInitLoop i input acc).1 pos d = dictGet acc.1 pos d := by
  intro input
  induction input with
  | nil => intro i acc _; rfl
  | cons s rest ih =>
    intro i acc h
    obtain ⟨cells, m⟩ := acc
    simp only [List.length_cons] at h
    show dictGet
        (tapeInitLoop (i + 1) rest (dictInsert cells (i : Int) s, (i : Int))).1
        pos d = dictGet cells pos d
    rw [ih (i + 1) _ (by push_cast at h ⊢; omega)]
    exact dictGet_cons_ne cells (i : Int) pos s d (by omega)

theorem tapeInitLoop_snd :
    ∀ (input : List String) (i : Nat) (acc : List (Int × String) × Int),
      (tapeInitLoop i input acc).2 =
        if input = [] then acc.2 else (i : Int) + input.length - 1 := by
  intro input
  induction input with
  | nil => intro i acc; rfl
  | cons s rest ih =>
    intro i acc
    obtain ⟨cells, m⟩ := acc
    show (tapeInitLoop (i + 1) rest (dictInsert cells (i : Int) s, (i : Int))).2 = _
    rw [ih (i + 1)]
    by_cases h : rest = []
    · subst h; simp
    · rw [if_neg h, if_neg (by simp)]
      simp only [List.length_cons]
      push_cast
      ring

theorem read_ofInput_outside (blank : String) (input : List String) (pos : Int)
    (h : pos < 0 ∨ (input.length : Int) ≤ pos) :
    (Tape.ofInput blank input).read pos = blank := by
  unfold Tape.ofInput Tape.read Tape.readSt
  by_cases he : input = []
  · subst he
    show dictGet (dictInsert (tapeInitLoop 0 [] ([], 0)).1 0 blank) pos blank = blank
    simp only [tapeInitLoop, dictInsert, dictGet]
    split <;> rfl
  · simp only [if_neg he]
    show dictGet (tapeInitLoop 0 input ([], 0)).1 pos blank = blank
    rw [dictGet_tapeInitLoop blank pos input 0 ([], 0) (by omega)]
    rfl

theorem read_foldl_write (ws : List (Int × String)) :
    ∀ (t : Tape) (pos : Int), pos ∉ ws.map Prod.fst →
      (ws.foldl (fun u pw => u.write pw.1 pw.2) t).read pos = t.read pos := by
  induction ws with
  | nil => intro t pos _; rfl
  | cons pw ws ih =>
    intro t pos h
    simp only [List.map_cons, List.mem_cons, not_or] at h
    rw [List.foldl_cons, ih _ _ h.2]
    show dictGet (dictInsert t.cells pw.1 pw.2) pos t.blank_symbol = t.read pos
    simp only [dictInsert]
    rw [dictGet_cons_ne t.cells pw.1 pos pw.2 t.blank_symbol (Ne.symm h.1)]
    rfl

theorem foldl_snd_fixed {α γ β : Type} (f : List γ × β → α → List γ × β)
    (hf : ∀ acc a, (f acc a).2 = acc.2) :
    ∀ (l : List α) (acc : List γ × β), (l.foldl f acc).2 = acc.2 := by
  intro l
  induction l with
  | nil => intro acc; rfl
  | cons a l ih => intro acc; rw [List.foldl_cons, ih, hf]

/-! ## Example machines used to witness the claims on concrete inputs -/

/-- Wildcard-memory rule for (q0, "0"). -/
def tWild : Transition :=
  { initial_state := "q0", read_symbol := "0", next_state := "q1",
    write_symbol := "0", movement := "R" }

/-- Memory-specific rule for (q0, "0") with memory "seen". -/
def tExact : Transition :=
  { initial_state := "q0", read_symbol := "0", next_state := "qf",
    write_symbol := "0", movement := "S", initial_memory := some "seen" }

/-- A machine carrying a memory register, with a wildcard rule and a
memory-specific rule for the same (state, symbol). -/
def specMem : MachineSpecification :=
  { states := ["q0", "q1", "qf"], initial_state := "q0",
    final_states := ["qf"], input_alphabet := ["0"],
    tape_alphabet := ["0", "_"], blank_symbol := "_",
    transitions := [tWild, tExact], simulation_strings := [],
    memory_alphabet := some ["seen", "clear"],
    initial_memory := some "seen" }

def tmMem : TuringMachine := TuringMachine.ofSpec specMem

/-- A machine with an empty transition table. -/
def specNone : MachineSpecification :=
  { states := ["q0", "qf"], initial_state := "q0", final_states := ["qf"],
    input_alphabet := ["1"], tape_alphabet := ["1", "_"],
    blank_symbol := "_", transitions := [], simulation_strings := [] }

def tmNone : TuringMachine := TuringMachine.ofSpec specNone

/-- A machine that loops forever in place: (q0, "a") → (q0, "a", Stay). -/
def tStay : Transition :=
  { initial_state := "q0", read_symbol := "a", next_state := "q0",
    write_symbol := "a", movement := "S" }

def specLoop : MachineSpecification :=
  { states := ["q0"], initial_state := "q0", final_states := [],
    input_alphabet := ["a"], tape_alphabet := ["a", "_"],
    blank_symbol := "_", transitions := [tStay], simulation_strings := [] }

def tmLoop : TuringMachine := TuringMachine.ofSpec specLoop

/-! ## Claims -/

/-- Claim C1: when the transition table holds both an exact-memory rule for
(s, c, m) and a wildcard rule for (s, c), resolution returns the
exact-memory rule; the wildcard lookup is the result only when no
exact-memory entry exists for (s, c, m). -/
theorem claim_C1 (tm : TuringMachine) (s c m : String) :
    (∀ tE tW : Transition,
        mapGet tm.transition_map (transition_key s c (some m)) = some tE →
        mapGet tm.transition_map (transition_key s c none) = some tW →
        tm.next_transition s c (some m) = some tE) ∧
    (mapGet tm.transition_map (transition_key s c (some m)) = none →
        tm.next_transition s c (some m) =
          mapGet tm.transition_map (transition_key s c none)) := by
  constructor
  · intro tE tW hE hW
    unfold TuringMachine.next_transition
    rw [hE]
  · intro hE
    unfold TuringMachine.next_transition
    rw [hE]

theorem claim_C1_witness :
    mapGet tmMem.transition_map (transition_key "q0" "0" (some "seen")) =
      some tExact ∧
    mapGet tmMem.transition_map (transition_key "q0" "0" none) = some tWild ∧
    tmMem.next_transition "q0" "0" (some "seen") = some tExact :=
  ⟨by decide, by decide,
    (claim_C1 tmMem "q0" "0" "seen").1 tExact tWild (by decide) (by decide)⟩

/-- Claim C6: a position never written and outside the input-initialized
range reads as the blank symbol, and reading a position immediately after
writing a symbol there returns that symbol. -/
theorem claim_C6 (blank : String) (input : List String)
    (ws : List (Int × String)) (pos : Int) :
    ((pos < 0 ∨ (input.length : Int) ≤ pos) →
      pos ∉ ws.map Prod.fst →
      (ws.foldl (fun u pw => u.write pw.1 pw.2)
          (Tape.ofInput blank input)).read pos = blank) ∧
    (∀ (t : Tape) (x : String), (t.write pos x).read pos = x) := by
  constructor
  · intro h1 h2
    rw [read_foldl_write ws _ pos h2]
    exact read_ofInput_outside blank input pos h1
  · intro t x
    show dictGet (dictInsert t.cells pos x) pos _ = x
    simp [dictInsert, dictGet]

theorem claim_C6_witness :
    ([((5 : Int), "z")].foldl (fun u pw => u.write pw.1 pw.2)
        (Tape.ofInput "_" ["a"])).read 2 = "_" ∧
    ((Tape.ofInput "_" ["a"]).write 7 "y").read 7 = "y" :=
  ⟨(claim_C6 "_" ["a"] [(5, "z")] 2).1 (by decide) (by decide),
   (claim_C6 "_" ["a"] [] 7).2 (Tape.ofInput "_" ["a"]) "y"⟩

/-- Claim C8 (counterexample): on the two-character input "ab" the tape is
constructed with max_index = 1, so min and max touched indices are not both
0 regardless of the input length. -/
theorem claim_C8_counterexample :
    ¬ ((Tape.ofInput "B" ["a", "b"]).min_index = 0 ∧
       (Tape.ofInput "B" ["a", "b"]).max_index = 0) := by
  decide

/-- Claim C8 (amended): after construction min_index is always 0, while
max_index is 0 for an empty input and input length minus one otherwise;
an empty input explicitly initializes cell 0 to the blank symbol. -/
theorem claim_C8 (blank : String) (input : List String) :
    (Tape.ofInput blank input).min_index = 0 ∧
    (Tape.ofInput blank input).max_index =
      (if input = [] then 0 else (input.length : Int) - 1) ∧
    (input = [] → (Tape.ofInput blank input).cells = [(0, blank)]) := by
  refine ⟨rfl, ?_, ?_⟩
  · show (tapeInitLoop 0 input ([], 0)).2 = _
    rw [tapeInitLoop_snd]
    by_cases h : input = []
    · simp [h]
    · rw [if_neg h, if_neg h]
      push_cast
      ring
  · intro h
    subst h
    rfl

theorem claim_C8_witness :
    (Tape.ofInput "B" ([] : List String)).min_index = 0 ∧
    (Tape.ofInput "B" ([] : List String)).max_index = 0 ∧
    (Tape.ofInput "B" ([] : List String)).cells = [(0, "B")] := by
  obtain ⟨h1, h2, h3⟩ := claim_C8 "B" []
  exact ⟨h1, by simpa using h2, h3 rfl⟩

/-- Claim C9: the key-building expression collapses an empty-string memory
and the literal "*" memory to the wildcard key, so resolution for those
memory values finds the wildcard rule on its first (exact) probe, and a
transition declared with empty-string initial memory is stored under the
wildcard key. -/
theorem claim_C9 (s c : String) :
    transition_key s c (some "") = transition_key s c none ∧
    transition_key s c (some "*") = transition_key s c none ∧
    (∀ (tm : TuringMachine) (tW : Transition),
        mapGet tm.transition_map (transition_key s c none) = some tW →
        tm.next_transition s c (some "") = some tW ∧
        tm.next_transition s c (some "*") = some tW) ∧
    (∀ t : Transition, t.initial_memory = some "" →
        transition_key t.initial_state t.read_symbol t.initial_memory =
          transition_key t.initial_state t.read_symbol none) := by
  have e1 : transition_key s c (some "") = transition_key s c none := rfl
  have e2 : transition_key s c (some "*") = transition_key s c none := rfl
  refine ⟨e1, e2, ?_, ?_⟩
  · intro tm tW h
    constructor
    · unfold TuringMachine.next_transition
      rw [e1, h]
    · unfold TuringMachine.next_transition
      rw [e2, h]
  · intro t ht
    rw [ht]
    rfl

theorem claim_C9_witness :
    tmMem.next_transition "q0" "0" (some "") = some tWild ∧
    tmMem.next_transition "q0" "0" (some "*") = some tWild :=
  (claim_C9 "q0" "0").2.2.1 tmMem tWild (by decide)

/-- Claim C10: reading and rendering are observers — the state-passing
embeddings of `Tape.read` and `Tape.view` return the tape unchanged, and a
repeated read of the same position returns the same symbol. -/
theorem claim_C10 (t : Tape) (position head_position radius : Int) :
    (t.readSt position).2 = t ∧
    (t.viewSt head_position radius).2 = t ∧
    (t.readSt position).1 = ((t.readSt position).2.readSt position).1 := by
  refine ⟨rfl, ?_, rfl⟩
  show (t.viewSt head_position radius).2 = t
  unfold Tape.viewSt
  dsimp only
  refine foldl_snd_fixed _ ?_ _ _
  intro acc a
  rfl

/-! ## Last-write-wins characterization of the transition map -/

theorem mapGet_foldl_transitions (k : String) :
    ∀ (ts : List Transition) (m0 : List (String × Transition)),
      mapGet (ts.foldl (fun mapping t =>
          (transition_key t.initial_state t.read_symbol t.initial_memory, t) ::
            mapping) m0) k =
        match ts.reverse.find? (fun t =>
            transition_key t.initial_state t.read_symbol t.initial_memory == k)
          with
        | some t => some t
        | none => mapGet m0 k := by
  intro ts
  induction ts with
  | nil => intro m0; rfl
  | cons t ts ih =>
    intro m0
    rw [List.foldl_cons, ih]
    rw [List.reverse_cons, List.find?_append]
    cases hf : ts.reverse.find? (fun u =>
        transition_key u.initial_state u.read_symbol u.initial_memory == k) with
    | some u => simp [hf]
    | none =>
      by_cases h : transition_key t.initial_state t.read_symbol
          t.initial_memory = k
      · simp [hf, h, mapGet]
      · simp [hf, h, mapGet]

theorem mapGet_transition_map (spec : MachineSpecification) (k : String) :
    mapGet spec.transition_map k =
      spec.transitions.reverse.find? (fun t =>
        transition_key t.initial_state t.read_symbol t.initial_memory == k) := by
  unfold MachineSpecification.transition_map
  rw [mapGet_foldl_transitions]
  cases hf : spec.transitions.reverse.find? (fun t =>
      transition_key t.initial_state t.read_symbol t.initial_memory == k) with
  | some u => rfl
  | none => rfl

/-- Claim C7: with two rules sharing the same exact key and no later rule on
that key, the built transition map holds the later rule, and resolution for
a triple keyed on that key observes the later rule. -/
theorem claim_C7 (spec : MachineSpecification) (t1 t2 : Transition)
    (pre mid post : List Transition) (s c : String) (m : Option String)
    (hts : spec.transitions = pre ++ t1 :: mid ++ t2 :: post)
    (hk1 : transition_key t1.initial_state t1.read_symbol t1.initial_memory =
      transition_key s c m)
    (hk2 : transition_key t2.initial_state t2.read_symbol t2.initial_memory =
      transition_key s c m)
    (hpost : ∀ u ∈ post,
      transition_key u.initial_state u.read_symbol u.initial_memory ≠
        transition_key s c m) :
    mapGet spec.transition_map (transition_key s c m) = some t2 ∧
    (TuringMachine.ofSpec spec).next_transition s c m = some t2 := by
  have hmap : mapGet spec.transition_map (transition_key s c m) = some t2 := by
    rw [mapGet_transition_map, hts]
    have h1 : (pre ++ t1 :: mid ++ t2 :: post).reverse =
        post.reverse ++ [t2] ++ mid.reverse ++ [t1] ++ pre.reverse := by
      simp
    rw [h1]
    have hpr : (post.reverse).find? (fun u =>
        transition_key u.initial_state u.read_symbol u.initial_memory ==
          transition_key s c m) = none := by
      rw [List.find?_eq_none]
      intro x hx
      simp only [List.mem_reverse] at hx
      simp [hpost x hx]
    have ht2 : ([t2]).find? (fun u =>
        transition_key u.initial_state u.read_symbol u.initial_memory ==
          transition_key s c m) = some t2 :=
      List.find?_cons_of_pos _ (by simp [hk2])
    rw [List.find?_append, List.find?_append, List.find?_append,
      List.find?_append, hpr, ht2]
    rfl
  refine ⟨hmap, ?_⟩
  unfold TuringMachine.next_transition
  show (match mapGet spec.transition_map (transition_key s c m) with
        | some transition => some transition
        | none =>
            mapGet spec.transition_map (transition_key s c none)) = some t2
  rw [hmap]

/-- Two rules colliding on the same exact key (q0, "1", wildcard). -/
def tDupA : Transition :=
  { initial_state := "q0", read_symbol := "1", next_state := "q1",
    write_symbol := "0", movement := "R" }

def tDupB : Transition :=
  { initial_state := "q0", read_symbol := "1", next_state := "q2",
    write_symbol := "1", movement := "L" }

def specDup : MachineSpecification :=
  { states := ["q0", "q1", "q2"], initial_state := "q0", final_states := [],
    input_alphabet := ["1"], tape_alphabet := ["1", "0", "_"],
    blank_symbol := "_", transitions := [tDupA, tDupB],
    simulation_strings := [] }

theorem claim_C7_witness :
    mapGet specDup.transition_map (transition_key "q0" "1" none) =
      some tDupB ∧
    (TuringMachine.ofSpec specDup).next_transition "q0" "1" none =
      some tDupB :=
  claim_C7 specDup tDupA tDupB [] [] [] "q0" "1" none rfl rfl rfl
    (by simp)

/-! ## Unfolding lemmas for the run loop -/

theorem runAux_succ_none (tm : TuringMachine) (capture_ids : Bool)
    (fuel : Nat) (tape : Tape) (state : String) (head_position : Int)
    (memory : Option String) (steps : Nat)
    (ids : List InstantaneousDescription)
    (hn : tm.next_transition state (tape.read head_position) memory = none) :
    tm.runAux capture_ids (fuel + 1) tape state head_position memory steps
        ids =
      { accepted := decide (state ∈ tm.spec.final_states)
        halted := true
        reason :=
          if state ∈ tm.spec.final_states then "Estado final alcanzado"
          else "No existe transición definida"
        steps := steps
        ids := ids } := by
  simp only [TuringMachine.runAux, hn]

theorem runAux_succ_final (tm : TuringMachine) (capture_ids : Bool)
    (fuel : Nat) (tape : Tape) (state : String) (head_position : Int)
    (memory : Option String) (steps : Nat)
    (ids : List InstantaneousDescription) (tr : Transition)
    (hn : tm.next_transition state (tape.read head_position) memory = some tr)
    (hfin : tr.next_state ∈ tm.spec.final_states) :
    tm.runAux capture_ids (fuel + 1) tape state head_position memory steps
        ids =
      { accepted := true
        halted := true
        reason := "Estado final alcanzado"
        steps := steps + 1
        ids :=
          captureId capture_ids ids (steps + 1) tr.next_state
            (if tr.movement = "R" then head_position + 1
             else if tr.movement = "L" then head_position - 1
             else head_position)
            (tape.write head_position tr.write_symbol)
            (match tr.next_memory with
             | some m => some m
             | none => memory) } := by
  simp only [TuringMachine.runAux, hn]
  rw [if_pos hfin]

theorem runAux_succ_step (tm : TuringMachine) (capture_ids : Bool)
    (fuel : Nat) (tape : Tape) (state : String) (head_position : Int)
    (memory : Option String) (steps : Nat)
    (ids : List InstantaneousDescription) (tr : Transition)
    (hn : tm.next_transition state (tape.read head_position) memory = some tr)
    (hfin : tr.next_state ∉ tm.spec.final_states) :
    tm.runAux capture_ids (fuel + 1) tape state head_position memory steps
        ids =
      tm.runAux capture_ids fuel (tape.write head_position tr.write_symbol)
        tr.next_state
        (if tr.movement = "R" then head_position + 1
         else if tr.movement = "L" then head_position - 1
         else head_position)
        (match tr.next_memory with
         | some m => some m
         | none => memory)
        (steps + 1)
        (captureId capture_ids ids (steps + 1) tr.next_state
          (if tr.movement = "R" then head_position + 1
           else if tr.movement = "L" then head_position - 1
           else head_position)
          (tape.write head_position tr.write_symbol)
          (match tr.next_memory with
           | some m => some m
           | none => memory)) := by
  simp only [TuringMachine.runAux, hn]
  rw [if_neg hfin]

theorem countApps_succ_none (tm : TuringMachine) (fuel : Nat) (tape : Tape)
    (state : String) (head_position : Int) (memory : Option String)
    (hn : tm.next_transition state (tape.read head_position) memory = none) :
    tm.countApps (fuel + 1) tape state head_position memory = 0 := by
  simp only [TuringMachine.countApps, hn]

theorem countApps_succ_final (tm : TuringMachine) (fuel : Nat) (tape : Tape)
    (state : String) (head_position : Int) (memory : Option String)
    (tr : Transition)
    (hn : tm.next_transition state (tape.read head_position) memory = some tr)
    (hfin : tr.next_state ∈ tm.spec.final_states) :
    tm.countApps (fuel + 1) tape state head_position memory = 1 := by
  simp only [TuringMachine.countApps, hn]
  rw [if_pos hfin]

theorem countApps_succ_step (tm : TuringMachine) (fuel : Nat) (tape : Tape)
    (state : String) (head_position : Int) (memory : Option String)
    (tr : Transition)
    (hn : tm.next_transition state (tape.read head_position) memory = some tr)
    (hfin : tr.next_state ∉ tm.spec.final_states) :
    tm.countApps (fuel + 1) tape state head_position memory =
      1 + tm.countApps fuel (tape.write head_position tr.write_symbol)
        tr.next_state
        (if tr.movement = "R" then head_position + 1
         else if tr.movement = "L" then head_position - 1
         else head_position)
        (match tr.next_memory with
         | some m => some m
         | none => memory) := by
  simp only [TuringMachine.countApps, hn]
  rw [if_neg hfin]

/-! ## Invariants of the run loop -/

theorem runAux_not_halted (tm : TuringMachine) (capture_ids : Bool) :
    ∀ (fuel : Nat) (tape : Tape) (state : String) (head_position : Int)
      (memory : Option String) (steps : Nat)
      (ids : List InstantaneousDescription),
      (tm.runAux capture_ids fuel tape state head_position memory steps
          ids).halted = false →
      (tm.runAux capture_ids fuel tape state head_position memory steps
          ids).accepted = false ∧
      (tm.runAux capture_ids fuel tape state head_position memory steps
          ids).steps = steps + fuel ∧
      (tm.runAux capture_ids fuel tape state head_position memory steps
          ids).reason = "Se alcanzó el límite máximo de pasos" := by
  intro fuel
  induction fuel with
  | zero =>
    intro tape state head_position memory steps ids _
    exact ⟨rfl, rfl, rfl⟩
  | succ fuel ih =>
    intro tape state head_position memory steps ids h
    cases hn : tm.next_transition state (tape.read head_position) memory with
    | none =>
      rw [runAux_succ_none tm capture_ids fuel tape state head_position
        memory steps ids hn] at h
      exact absurd h (by simp)
    | some tr =>
      by_cases hfin : tr.next_state ∈ tm.spec.final_states
      · rw [runAux_succ_final tm capture_ids fuel tape state head_position
          memory steps ids tr hn hfin] at h
        exact absurd h (by simp)
      · rw [runAux_succ_step tm capture_ids fuel tape state head_position
          memory steps ids tr hn hfin] at h ⊢
        obtain ⟨ha, hs, hr⟩ := ih _ _ _ _ _ _ h
        refine ⟨ha, ?_, hr⟩
        rw [hs]
        omega

theorem runAux_steps_eq_countApps (tm : TuringMachine) (capture_ids : Bool) :
    ∀ (fuel : Nat) (tape : Tape) (state : String) (head_position : Int)
      (memory : Option String) (steps : Nat)
      (ids : List InstantaneousDescription),
      (tm.runAux capture_ids fuel tape state head_position memory steps
          ids).steps =
        steps + tm.countApps fuel tape state head_position memory := by
  intro fuel
  induction fuel with
  | zero =>
    intro tape state head_position memory steps ids
    rfl
  | succ fuel ih =>
    intro tape state head_position memory steps ids
    cases hn : tm.next_transition state (tape.read head_position) memory with
    | none =>
      rw [runAux_succ_none tm capture_ids fuel tape state head_position
        memory steps ids hn,
        countApps_succ_none tm fuel tape state head_position memory hn]
      rfl
    | some tr =>
      by_cases hfin : tr.next_state ∈ tm.spec.final_states
      · rw [runAux_succ_final tm capture_ids fuel tape state head_position
          memory steps ids tr hn hfin,
          countApps_succ_final tm fuel tape state head_position memory tr hn
            hfin]
      · rw [runAux_succ_step tm capture_ids fuel tape state head_position
          memory steps ids tr hn hfin,
          countApps_succ_step tm fuel tape state head_position memory tr hn
            hfin, ih]
        omega

theorem runAux_ids_steps (tm : TuringMachine) :
    ∀ (fuel : Nat) (tape : Tape) (state : String) (head_position : Int)
      (memory : Option String) (steps : Nat)
      (ids : List InstantaneousDescription),
      ids.map (fun d => d.step) = List.range (steps + 1) →
      (tm.runAux true fuel tape state head_position memory steps
          ids).ids.map (fun d => d.step) =
        List.range
          ((tm.runAux true fuel tape state head_position memory steps
              ids).steps + 1) := by
  intro fuel
  induction fuel with
  | zero =>
    intro tape state head_position memory steps ids hids
    exact hids
  | succ fuel ih =>
    intro tape state head_position memory steps ids hids
    cases hn : tm.next_transition state (tape.read head_position) memory with
    | none =>
      rw [runAux_succ_none tm true fuel tape state head_position memory
        steps ids hn]
      exact hids
    | some tr =>
      have hcap : (captureId true ids (steps + 1) tr.next_state
          (if tr.movement = "R" then head_position + 1
           else if tr.movement = "L" then head_position - 1
           else head_position)
          (tape.write head_position tr.write_symbol)
          (match tr.next_memory with
           | some m => some m
           | none => memory)).map (fun d => d.step) =
          List.range (steps + 1 + 1) := by
        simp [captureId, hids, List.range_succ]
      by_cases hfin : tr.next_state ∈ tm.spec.final_states
      · rw [runAux_succ_final tm true fuel tape state head_position memory
          steps ids tr hn hfin]
        exact hcap
      · rw [runAux_succ_step tm true fuel tape state head_position memory
          steps ids tr hn hfin]
        exact ih _ _ _ _ _ _ hcap

/-- Claim C2: when the loop is still permitted to step but no transition
resolves for the current (state, symbol, memory) triple, the run returns a
halted result, accepted exactly when the current state is final, with the
matching reason, without counting a further step or appending a further
snapshot. -/
theorem claim_C2 (tm : TuringMachine) (capture_ids : Bool) (fuel : Nat)
    (tape : Tape) (state : String) (head_position : Int)
    (memory : Option String) (steps : Nat)
    (ids : List InstantaneousDescription)
    (hf : 0 < fuel)
    (hn : tm.next_transition state (tape.read head_position) memory = none) :
    (tm.runAux capture_ids fuel tape state head_position memory steps
        ids).halted = true ∧
    ((tm.runAux capture_ids fuel tape state head_position memory steps
        ids).accepted = true ↔ state ∈ tm.spec.final_states) ∧
    (tm.runAux capture_ids fuel tape state head_position memory steps
        ids).reason =
      (if state ∈ tm.spec.final_states then "Estado final alcanzado"
       else "No existe transición definida") ∧
    (tm.runAux capture_ids fuel tape state head_position memory steps
        ids).steps = steps ∧
    (tm.runAux capture_ids fuel tape state head_position memory steps
        ids).ids = ids := by
  cases fuel with
  | zero => exact absurd hf (lt_irrefl 0)
  | succ fuel =>
    rw [runAux_succ_none tm capture_ids fuel tape state head_position memory
      steps ids hn]
    refine ⟨rfl, ?_, rfl, rfl, rfl⟩
    simp

theorem claim_C2_witness :
    (tmNone.runAux false 5 (Tape.ofInput "_" ["1"]) "q0" 0 none 0 []).halted
        = true ∧
    ((tmNone.runAux false 5 (Tape.ofInput "_" ["1"]) "q0" 0 none 0
        []).accepted = true ↔ "q0" ∈ tmNone.spec.final_states) ∧
    (tmNone.runAux false 5 (Tape.ofInput "_" ["1"]) "q0" 0 none 0
        []).reason =
      (if "q0" ∈ tmNone.spec.final_states then "Estado final alcanzado"
       else "No existe transición definida") ∧
    (tmNone.runAux false 5 (Tape.ofInput "_" ["1"]) "q0" 0 none 0
        []).steps = 0 ∧
    (tmNone.runAux false 5 (Tape.ofInput "_" ["1"]) "q0" 0 none 0 []).ids
        = [] :=
  claim_C2 tmNone false 5 (Tape.ofInput "_" ["1"]) "q0" 0 none 0 []
    (by decide) (by decide)

/-- Claim C3: a run that stops by step-limit exhaustion (the only
non-halted outcome) is not accepted, counts exactly max_steps steps, and
carries the step-limit reason rather than the no-transition one; and in
every run the steps field equals the number of completed transition
applications. -/
theorem claim_C3 (tm : TuringMachine) (input : List String) (max_steps : Nat)
    (capture_ids : Bool) :
    ((tm.run input max_steps capture_ids).halted = false →
      (tm.run input max_steps capture_ids).accepted = false ∧
      (tm.run input max_steps capture_ids).steps = max_steps ∧
      (tm.run input max_steps capture_ids).reason =
        "Se alcanzó el límite máximo de pasos") ∧
    (tm.run input max_steps capture_ids).steps =
      tm.countApps max_steps (Tape.ofInput tm.spec.blank_symbol input)
        tm.spec.initial_state 0 tm.spec.initial_memory := by
  have hrun : tm.run input max_steps capture_ids =
      tm.runAux capture_ids max_steps
        (Tape.ofInput tm.spec.blank_symbol input) tm.spec.initial_state 0
        tm.spec.initial_memory 0
        (captureId capture_ids [] 0 tm.spec.initial_state 0
          (Tape.ofInput tm.spec.blank_symbol input)
          tm.spec.initial_memory) := rfl
  rw [hrun]
  constructor
  · intro h
    obtain ⟨ha, hs, hr⟩ := runAux_not_halted tm capture_ids max_steps
      (Tape.ofInput tm.spec.blank_symbol input) tm.spec.initial_state 0
      tm.spec.initial_memory 0
      (captureId capture_ids [] 0 tm.spec.initial_state 0
        (Tape.ofInput tm.spec.blank_symbol input) tm.spec.initial_memory) h
    exact ⟨ha, hs.trans (Nat.zero_add max_steps), hr⟩
  · exact (runAux_steps_eq_countApps tm capture_ids max_steps
      (Tape.ofInput tm.spec.blank_symbol input) tm.spec.initial_state 0
      tm.spec.initial_memory 0
      (captureId capture_ids [] 0 tm.spec.initial_state 0
        (Tape.ofInput tm.spec.blank_symbol input)
        tm.spec.initial_memory)).trans (Nat.zero_add _)

theorem claim_C3_witness :
    (tmLoop.run ["a"] 2 false).accepted = false ∧
    (tmLoop.run ["a"] 2 false).steps = 2 ∧
    (tmLoop.run ["a"] 2 false).reason =
      "Se alcanzó el límite máximo de pasos" :=
  (claim_C3 tmLoop ["a"] 2 false).1 (by decide)

/-- Claim C4: with trace capture enabled a snapshot is taken at step 0 and
after each completed transition, so the recorded step numbers are exactly
0..steps, the trace has length steps + 1, and for step-limit exhaustion
that length is max_steps + 1. -/
theorem claim_C4 (tm : TuringMachine) (input : List String)
    (max_steps : Nat) :
    (tm.run input max_steps true).ids.map (fun d => d.step) =
      List.range ((tm.run input max_steps true).steps + 1) ∧
    (tm.run input max_steps true).ids.length =
      (tm.run input max_steps true).steps + 1 ∧
    ((tm.run input max_steps true).halted = false →
      (tm.run input max_steps true).ids.length = max_steps + 1) := by
  have hrun : tm.run input max_steps true =
      tm.runAux true max_steps (Tape.ofInput tm.spec.blank_symbol input)
        tm.spec.initial_state 0 tm.spec.initial_memory 0
        (captureId true [] 0 tm.spec.initial_state 0
          (Tape.ofInput tm.spec.blank_symbol input)
          tm.spec.initial_memory) := rfl
  rw [hrun]
  have hmap := runAux_ids_steps tm max_steps
    (Tape.ofInput tm.spec.blank_symbol input) tm.spec.initial_state 0
    tm.spec.initial_memory 0
    (captureId true [] 0 tm.spec.initial_state 0
      (Tape.ofInput tm.spec.blank_symbol input) tm.spec.initial_memory)
    (by simp [captureId, List.range_succ])
  have hlen := congrArg List.length hmap
  simp only [List.length_map, List.length_range] at hlen
  refine ⟨hmap, hlen, ?_⟩
  intro hh
  obtain ⟨_, hs, _⟩ := runAux_not_halted tm true max_steps
    (Tape.ofInput tm.spec.blank_symbol input) tm.spec.initial_state 0
    tm.spec.initial_memory 0
    (captureId true [] 0 tm.spec.initial_state 0
      (Tape.ofInput tm.spec.blank_symbol input) tm.spec.initial_memory) hh
  rw [hlen, hs]
  omega

theorem claim_C4_witness :
    (tmLoop.run ["a"] 1 true).ids.length = 1 + 1 :=
  (claim_C4 tmLoop ["a"] 1).2.2 (by decide)

/-- Claim C5: determinism — the embedded run is a pure function of the
specification, input string, step budget, and trace flag, so two
invocations yield identical results, field for field, with the same
snapshot at every trace position. -/
theorem claim_C5 (tm : TuringMachine) (input : List String) (max_steps : Nat)
    (capture_ids : Bool) :
    tm.run input max_steps capture_ids = tm.run input max_steps capture_ids ∧
    (tm.run input max_steps capture_ids).accepted =
      (tm.run input max_steps capture_ids).accepted ∧
    (tm.run input max_steps capture_ids).halted =
      (tm.run input max_steps capture_ids).halted ∧
    (tm.run input max_steps capture_ids).reason =
      (tm.run input max_steps capture_ids).reason ∧
    (tm.run input max_steps capture_ids).steps =
      (tm.run input max_steps capture_ids).steps ∧
    ∀ i : Nat, (tm.run input max_steps capture_ids).ids[i]? =
      (tm.run input max_steps capture_ids).ids[i]? :=
  ⟨rfl, rfl, rfl, rfl, rfl, fun _ => rfl⟩
